import Mathlib

/-!
# Verification of the libdc-swift reefnet_sensus device session and extraction engine

Shallow embedding of `src/libdivecomputer/src/reefnet_sensus.c` (device dump,
handshake, close/cancel, dive extraction) together with the generic device
layer of `src/BLETest/libdivecomputer/src/device.c` (`dc_device_dump`,
`device_event_emit`), and the byte-decoding helpers of
`src/Sources/LibDCBridge/include/BLEBridge.h` (`array_uint16_le`,
`array_uint32_le`).

Byte buffers are modelled as `List Nat` (each element one byte), machine
integers as `Nat` with explicit `% 2^w` where C overflow/conversion matters.
The two `while` loops of `reefnet_sensus_extract_dives` are embedded with an
explicit fuel argument (structurally recursive, hence executable); the fuel is
provably irrelevant as soon as it dominates the loop measure, and clean
equation lemmas (`findEnd_eq`, `scanLoop_eq`) recover the exact loop-step
semantics of the C source.
-/

set_option maxHeartbeats 1000000

namespace LibDC

/-- `dc_status_t` values used by the embedded code
(`src/Sources/Clibdivecomputer/include/...` / libdivecomputer `common.h`). -/
inductive DCStatus where
  | success
  | io
  | timeout
  | protocol
  | dataformat
  | nomemory
  | invalidargs
  | unsupported
  | cancelled
  deriving DecidableEq, Repr

/-- Read one byte of a buffer; C code only dereferences in-bounds indices, so
the default value is never observed on the executions the theorems speak about. -/
def byteAt (data : List Nat) (i : Nat) : Nat := data.getD i 0

/-- `array_uint16_le` from `src/Sources/LibDCBridge/include/BLEBridge.h`:
`array[0] | (array[1] << 8)`, reading at offset `i` of the buffer. -/
def array_uint16_le (data : List Nat) (i : Nat) : Nat :=
  byteAt data i + byteAt data (i + 1) * 256

/-- `array_uint32_le` from `src/Sources/LibDCBridge/include/BLEBridge.h`:
`array[0] | (array[1] << 8) | (array[2] << 16) | (array[3] << 24)`. -/
def array_uint32_le (data : List Nat) (i : Nat) : Nat :=
  byteAt data i + byteAt data (i + 1) * 256 +
    byteAt data (i + 2) * 65536 + byteAt data (i + 3) * 16777216

/-- `SZ_MEMORY` from reefnet_sensus.c. -/
def SZ_MEMORY : Nat := 32768

/-- `SZ_HANDSHAKE` from reefnet_sensus.c. -/
def SZ_HANDSHAKE : Nat := 10

/-! ## The forward walk locating a dive's end

C source (reefnet_sensus.c, inner `while` of `reefnet_sensus_extract_dives`):
```
int found = 0;
unsigned int nsamples = 0, count = 0;
unsigned int offset = current + 7;
while (offset + 1 <= previous) {
    unsigned char depth = data[offset++];
    if ((nsamples % 6) == 0) {
        if (offset + 1 > previous)
            break;
        offset++;
    }
    nsamples++;
    if (depth < 13 + 3) {
        count++;
        if (count == 17) { found = 1; break; }
    } else {
        count = 0;
    }
}
```
`findEndF` returns `some offset` when the loop exits with `found = 1`
(the value of `offset` at that point), and `none` when the loop exits
without finding the end of the dive. `fuel` bounds the number of loop
iterations; `previous - offset` iterations always suffice. -/
def findEndF (data : List Nat) (previous : Nat) :
    Nat → Nat → Nat → Nat → Option Nat
  | fuel, offset, nsamples, count =>
    if offset + 1 ≤ previous then
      match fuel with
      | 0 => none
      | fuel + 1 =>
        let depth := byteAt data offset
        if nsamples % 6 = 0 then
          if offset + 1 + 1 > previous then
            none
          else
            if depth < 13 + 3 then
              if count + 1 = 17 then some (offset + 2)
              else findEndF data previous fuel (offset + 2) (nsamples + 1) (count + 1)
            else findEndF data previous fuel (offset + 2) (nsamples + 1) 0
        else
          if depth < 13 + 3 then
            if count + 1 = 17 then some (offset + 1)
            else findEndF data previous fuel (offset + 1) (nsamples + 1) (count + 1)
          else findEndF data previous fuel (offset + 1) (nsamples + 1) 0
    else none

/-- The inner forward walk with sufficient fuel. -/
def findEnd (data : List Nat) (previous offset nsamples count : Nat) : Option Nat :=
  findEndF data previous previous offset nsamples count

/-- One dive as reported to the visitor callback: the C callback receives the
pointer `data + current` and the length `offset - current`; we record the
start index and the end offset. -/
structure DiveRec where
  start : Nat
  stop : Nat
  deriving DecidableEq, Repr

/-- The byte slice `data[current .. offset)` handed to the visitor. -/
def sliceOf (data : List Nat) (d : DiveRec) : List Nat :=
  (data.drop d.start).take (d.stop - d.start)

/-- Timestamp of a dive starting at index `s`: `array_uint32_le (data + s + 2)`. -/
def tsAt (data : List Nat) (s : Nat) : Nat := array_uint32_le data (s + 2)

/-! ## The backward scan of `reefnet_sensus_extract_dives`

C source (outer `while`):
```
unsigned int previous = size;
unsigned int current = (size >= 7 ? size - 7 : 0);
while (current > 0) {
    current--;
    if (data[current] == 0xFF && data[current + 6] == 0xFE) {
        ... inner walk (findEnd) ...
        if (!found) return DC_STATUS_DATAFORMAT;
        unsigned int timestamp = array_uint32_le (data + current + 2);
        if (device && timestamp <= device->timestamp)
            return DC_STATUS_SUCCESS;
        if (callback && !callback (data + current, offset - current,
                                   data + current + 2, 4, userdata))
            return DC_STATUS_SUCCESS;
        previous = current;
        current = (current >= 7 ? current - 7 : 0);
    }
}
return DC_STATUS_SUCCESS;
```
The model returns the status together with the list of dives on which the
visitor was invoked, in invocation order; the visitor is a pure predicate on
the byte slice it receives (`0`/`false` means stop). `fuel` bounds the number
of loop iterations; `current` decreases by at least one per iteration, so
`current` itself is sufficient fuel. -/
def scanLoopF (data : List Nat) (fp : Nat) (cb : List Nat → Bool) :
    Nat → Nat → Nat → DCStatus × List DiveRec
  | fuel, previous, current =>
    if current = 0 then (.success, [])
    else
      match fuel with
      | 0 => (.success, [])
      | fuel + 1 =>
        let c := current - 1
        if byteAt data c = 0xFF ∧ byteAt data (c + 6) = 0xFE then
          match findEnd data previous (c + 7) 0 0 with
          | none => (.dataformat, [])
          | some endOff =>
            if tsAt data c ≤ fp then (.success, [])
            else
              let d : DiveRec := ⟨c, endOff⟩
              if cb (sliceOf data d) then
                let r := scanLoopF data fp cb fuel c (if 7 ≤ c then c - 7 else 0)
                (r.1, d :: r.2)
              else (.success, [d])
        else scanLoopF data fp cb fuel previous c

/-- The backward scan loop with sufficient fuel. -/
def scanLoop (data : List Nat) (fp : Nat) (cb : List Nat → Bool)
    (previous current : Nat) : DCStatus × List DiveRec :=
  scanLoopF data fp cb current previous current

/-- `reefnet_sensus_extract_dives` (reefnet_sensus.c): `fp` is the session
fingerprint cursor `device->timestamp`, `cb` the visitor callback. -/
def reefnet_sensus_extract_dives (data : List Nat) (fp : Nat)
    (cb : List Nat → Bool) : DCStatus × List DiveRec :=
  scanLoop data fp cb data.length
    (if 7 ≤ data.length then data.length - 7 else 0)

/-! ## The device session operations

The transport (`dc_iostream_*`) is external to the session code; each
transport call site is modelled by the outcome the transport returns there:
a status for each write, and a status plus delivered bytes for each read.
A successful `dc_iostream_read` of `len` bytes fills exactly `len` bytes of
the destination buffer (which the C code zero-initializes), modelled by
`padTo`. -/

/-- Bytes deposited in a zero-initialized region of length `len` by a
successful read delivering `bs`. -/
def padTo (len : Nat) (bs : List Nat) : List Nat :=
  bs.take len ++ List.replicate (len - bs.length) 0

/-- Modelled from the spec: `checksum_add_uint16` is declared in
libdivecomputer's `checksum.h`, whose implementation is not among this
repository's sources; the spec describes the dump checksum as "the additive
16-bit sum of the payload bytes (mod 2^16)" with initial value `init`. -/
def checksum_add_uint16 (l : List Nat) (init : Nat) : Nat :=
  (l.foldl (fun a b => a + b) init) % 65536

/-- Outcome of `reefnet_sensus_handshake`: resulting status, the session
`waiting` flag afterwards, and the decoded device values (meaningful only on
success, zero otherwise, matching the zero-initialized C event structs). -/
structure HSResult where
  status : DCStatus
  waiting : Bool
  model : Nat
  firmware : Nat
  serial : Nat
  devtime : Nat
  blob : List Nat
  deriving DecidableEq, Repr

/-- `handshake[2] - '0'` stored into the `unsigned int` field
`devinfo.model`: C int arithmetic followed by conversion to `unsigned int`,
i.e. value `(b - 48) mod 2^32`. -/
def asciiDigitValue (b : Nat) : Nat := (b + 4294967296 - 48) % 4294967296

/-- `reefnet_sensus_handshake` (reefnet_sensus.c): write the command byte
`0x0A`, read a `SZ_HANDSHAKE + 2 = 12` byte reply into a zero-initialized
buffer, verify the `"OK"` header, set `waiting`, decode devtime/model/
firmware/serial and store the 10-byte handshake blob.
`waiting0` is the session's `waiting` flag before the call; `ws` and `rs` are
the statuses returned by the transport write and read, `rb` the bytes the
read delivered. -/
def reefnet_sensus_handshake (waiting0 : Bool) (ws rs : DCStatus)
    (rb : List Nat) : HSResult :=
  if ws ≠ .success then ⟨ws, waiting0, 0, 0, 0, 0, []⟩
  else if rs ≠ .success then ⟨rs, waiting0, 0, 0, 0, 0, []⟩
  else
    let hs := padTo 12 rb
    if byteAt hs 0 = 79 ∧ byteAt hs 1 = 75 then
      ⟨.success, true,
        asciiDigitValue (byteAt hs 2), asciiDigitValue (byteAt hs 3),
        array_uint16_le hs 6, array_uint32_le hs 8,
        (hs.drop 2).take SZ_HANDSHAKE⟩
    else ⟨.protocol, waiting0, 0, 0, 0, 0, []⟩

/-- The chunked read loop of `reefnet_sensus_device_dump`:
```
unsigned int nbytes = 0;
unsigned char answer[4 + SZ_MEMORY + 2 + 3] = {0};
while (nbytes < sizeof (answer)) {
    unsigned int len = sizeof (answer) - nbytes;
    if (len > 128) len = 128;
    status = dc_iostream_read (device->iostream, answer + nbytes, len, NULL);
    if (status != DC_STATUS_SUCCESS) return status;
    progress.current += len;
    device_event_emit (abstract, DC_EVENT_PROGRESS, &progress);
    nbytes += len;
}
```
`chunks` holds the outcome of each successive transport read (an exhausted
outcome list models a transport that fails the next read). Returns the final
status, the assembled answer bytes, and the `(current, maximum)` progress
events emitted inside the loop, in order. -/
def readLoop (total : Nat) :
    List (DCStatus × List Nat) → Nat → List Nat →
      DCStatus × List Nat × List (Nat × Nat)
  | chunks, nbytes, answer =>
    if nbytes < total then
      match chunks with
      | [] => (.io, answer, [])
      | (st, bs) :: rest =>
        let len := if total - nbytes > 128 then 128 else total - nbytes
        if st = .success then
          let r := readLoop total rest (nbytes + len) (answer ++ padTo len bs)
          (r.1, r.2.1, (nbytes + len, total) :: r.2.2)
        else (st, answer, [])
    else (.success, answer, [])

/-- The answer-validation step of `reefnet_sensus_device_dump`
(reefnet_sensus.c lines 316-329): `"DATA"` header, `"END"` trailer, then the
16-bit little-endian checksum at offset `4 + SZ_MEMORY` against the additive
checksum of the `SZ_MEMORY` payload bytes starting at offset 4. The `crc`
value is an `unsigned short`, hence the `% 65536`. -/
def reefnet_sensus_validate (answer : List Nat) : DCStatus :=
  if answer.take 4 = [68, 65, 84, 65] ∧
      answer.drop (4 + SZ_MEMORY + 2) = [69, 78, 68] then
    if array_uint16_le answer (4 + SZ_MEMORY) % 65536 =
        checksum_add_uint16 ((answer.drop 4).take SZ_MEMORY) 0 then
      .success
    else .protocol
  else .protocol

/-- Transport outcomes consumed by one `reefnet_sensus_device_dump` call, in
call order: the buffer reservation, the handshake's write and read, the dump
command write, and the chunked reads. -/
structure DumpEnv where
  reserveOk : Bool
  hsWriteStatus : DCStatus
  hsReadStatus : DCStatus
  hsReadBytes : List Nat
  cmdWriteStatus : DCStatus
  chunks : List (DCStatus × List Nat)

/-- Result of one dump call: status, the caller's buffer afterwards, the
progress events emitted `(current, maximum)` in order, the assembled raw
answer (as far as it was read), and the session `waiting` flag afterwards. -/
structure DumpResult where
  status : DCStatus
  buffer : List Nat
  progress : List (Nat × Nat)
  answer : List Nat
  waiting : Bool
  deriving DecidableEq, Repr

/-- `reefnet_sensus_device_dump` (reefnet_sensus.c): reserve the buffer, emit
the initial progress event with `maximum = 4 + SZ_MEMORY + 2 + 3`, handshake,
send the dump command `0x40` (clearing `waiting` on success), read the answer
in ≤128-byte chunks emitting progress, validate header/trailer/checksum, and
only then append the `SZ_MEMORY` payload bytes to `buf`. -/
def reefnet_sensus_device_dump (buf : List Nat) (waiting0 : Bool)
    (env : DumpEnv) : DumpResult :=
  if ¬ env.reserveOk then ⟨.nomemory, buf, [], [], waiting0⟩
  else
    let p0 : Nat × Nat := (0, 4 + SZ_MEMORY + 2 + 3)
    let hs := reefnet_sensus_handshake waiting0 env.hsWriteStatus
      env.hsReadStatus env.hsReadBytes
    if hs.status ≠ .success then ⟨hs.status, buf, [p0], [], hs.waiting⟩
    else if env.cmdWriteStatus ≠ .success then
      ⟨env.cmdWriteStatus, buf, [p0], [], hs.waiting⟩
    else
      let r := readLoop (4 + SZ_MEMORY + 2 + 3) env.chunks 0 []
      if r.1 ≠ .success then ⟨r.1, buf, p0 :: r.2.2, r.2.1, false⟩
      else
        let answer := r.2.1
        if reefnet_sensus_validate answer ≠ .success then
          ⟨reefnet_sensus_validate answer, buf, p0 :: r.2.2, answer, false⟩
        else
          ⟨.success, buf ++ (answer.drop 4).take SZ_MEMORY, p0 :: r.2.2,
            answer, false⟩

/-- Modelled from the spec: `dc_buffer_clear` is a libdivecomputer buffer
utility whose implementation is not among this repository's sources; it
empties the buffer ("a failed dump must not return a partially filled buffer
as if valid" presupposes the generic dump entry point starts from an empty
buffer). -/
def dc_buffer_clear (_ : List Nat) : List Nat := []

/-- `dc_device_dump` (src/BLETest/libdivecomputer/src/device.c): for a
non-null device with a dump vtable entry and a non-null buffer, clear the
buffer, then delegate to the backend dump. -/
def dc_device_dump (prior : List Nat) (waiting0 : Bool) (env : DumpEnv) :
    DumpResult :=
  reefnet_sensus_device_dump (dc_buffer_clear prior) waiting0 env

/-- Modelled from the spec: `dc_status_set_error` is a libdivecomputer status
helper whose implementation is not among this repository's sources; the spec
says close errors "are recorded" — the helper records `err` as the status to
return unless an earlier error was already recorded. -/
def dc_status_set_error (st err : DCStatus) : DCStatus :=
  if st = .success then err else st

/-- `reefnet_sensus_cancel` (reefnet_sensus.c): write the single cancel byte
`0x00`; on a failed write return the write's status leaving `waiting` as it
was; on success clear `waiting`. Returns (status, `waiting` afterwards, bytes
handed to the transport write). -/
def reefnet_sensus_cancel (waiting : Bool) (writeStatus : DCStatus) :
    DCStatus × Bool × List Nat :=
  if writeStatus ≠ .success then (writeStatus, waiting, [0x00])
  else (.success, false, [0x00])

/-- `reefnet_sensus_device_close` (reefnet_sensus.c): send the cancel command
only when `waiting` is set; record a failed cancel in the returned status. -/
def reefnet_sensus_device_close (waiting : Bool) (writeStatus : DCStatus) :
    DCStatus × Bool × List Nat :=
  if waiting then
    let r := reefnet_sensus_cancel waiting writeStatus
    let status := if r.1 ≠ .success then dc_status_set_error .success r.1
      else .success
    (status, r.2.1, r.2.2)
  else (.success, waiting, [])

/-- Result of `dc_device_close`: status, `waiting` afterwards, bytes written
to the transport, and whether the session memory was released. -/
structure CloseResult where
  status : DCStatus
  waiting : Bool
  written : List Nat
  deallocated : Bool
  deriving DecidableEq, Repr

/-- `dc_device_close` (src/BLETest/libdivecomputer/src/device.c): invoke the
backend close, then `dc_device_deallocate` unconditionally. -/
def dc_device_close (waiting : Bool) (writeStatus : DCStatus) : CloseResult :=
  let r := reefnet_sensus_device_close waiting writeStatus
  ⟨r.1, r.2.1, r.2.2, true⟩

/-! ## Specification-side predicates and concrete example inputs -/

/-- The dive-start sentinel: `data[i] == 0xFF && data[i + 6] == 0xFE`. -/
def marker (data : List Nat) (i : Nat) : Prop :=
  byteAt data i = 0xFF ∧ byteAt data (i + 6) = 0xFE

instance markerDec (data : List Nat) (i : Nat) : Decidable (marker data i) :=
  inferInstanceAs (Decidable (_ ∧ _))

/-- A chain of dive-start positions, newest first, exactly as the backward
scan can discover them: the head `s` lies below the scan cursor bound `hi`,
carries the sentinel pair, its forward walk (bounded by `prev`, the start of
the dive scanned before it, initially the buffer size) succeeds, and the tail
continues with bounds `prev := s` and cursor `s - 7` (the cursor value the
scan resumes from after processing the dive at `s`). -/
def chainWF (data : List Nat) : Nat → Nat → List Nat → Prop
  | _, _, [] => True
  | prev, hi, s :: rest =>
      s < hi ∧ marker data s ∧
      (findEnd data prev (s + 7) 0 0).isSome = true ∧
      chainWF data s (if 7 ≤ s then s - 7 else 0) rest

instance chainWFDec (data : List Nat) :
    (prev : Nat) → (hi : Nat) → (starts : List Nat) →
      Decidable (chainWF data prev hi starts)
  | _, _, [] => .isTrue trivial
  | prev, hi, s :: rest =>
    have : Decidable (chainWF data s (if 7 ≤ s then s - 7 else 0) rest) :=
      chainWFDec data s (if 7 ≤ s then s - 7 else 0) rest
    inferInstanceAs (Decidable (_ ∧ _ ∧ _ ∧ _))

/-- A well-formed address-ordered dump buffer with dive starts `starts`
(newest first): the starts form a reachable chain for the backward scan, and
no position of the buffer other than the listed starts carries the sentinel
pair. -/
def wellFormed (data : List Nat) (starts : List Nat) : Prop :=
  chainWF data data.length
    (if 7 ≤ data.length then data.length - 7 else 0) starts ∧
  ∀ i < data.length, marker data i → i ∈ starts

instance wellFormedDec (data : List Nat) (starts : List Nat) :
    Decidable (wellFormed data starts) :=
  inferInstanceAs (Decidable (_ ∧ _))

/-- The dive records the scan produces for a chain of start positions: each
dive's end offset is what the forward walk (bounded by the start of the
previously scanned dive) finds. -/
def divesOf (data : List Nat) : Nat → List Nat → List DiveRec
  | _, [] => []
  | prev, s :: rest =>
      ⟨s, (findEnd data prev (s + 7) 0 0).getD 0⟩ :: divesOf data s rest

/-- Specification-side description of the forward walk, written from the
claim's words over the list of bytes available to the walk (the window from
the dive's offset `start + 7` up to its bound): each sample consumes one
depth byte and every 6th sample (counting from sample 0) additionally
consumes one temperature byte; the end is found exactly when 17 consecutive
depth samples below the threshold `13 + 3` have been seen, returning the
number of bytes consumed; reaching the end of the window without such a run
(including a missing temperature byte) finds no end. -/
def walkSpec : List Nat → Nat → Nat → Option Nat
  | [], _, _ => none
  | depth :: rest, nsamples, count =>
    if nsamples % 6 = 0 then
      match rest with
      | [] => none
      | _ :: rest2 =>
        if depth < 13 + 3 then
          if count + 1 = 17 then some 2
          else (walkSpec rest2 (nsamples + 1) (count + 1)).map (· + 2)
        else (walkSpec rest2 (nsamples + 1) 0).map (· + 2)
    else
      if depth < 13 + 3 then
        if count + 1 = 17 then some 1
        else (walkSpec rest (nsamples + 1) (count + 1)).map (· + 1)
      else (walkSpec rest (nsamples + 1) 0).map (· + 1)

/-- A minimal well-formed dive block: sentinel bytes, timestamp `t0`, and 21
near-surface sample bytes (the forward walk finds the end after consuming
17 depth samples plus 3 interleaved temperature bytes, 27 bytes in all). -/
def diveBlock (t0 : Nat) : List Nat :=
  [0xFF, 0, t0, 0, 0, 0, 0xFE] ++ List.replicate 21 0

/-- A buffer holding two well-formed dives: the older (timestamp 1) at
address 0, the newer (timestamp 2) at address 28. -/
def twoDives : List Nat := diveBlock 1 ++ diveBlock 2

/-- A transport environment whose every read succeeds: handshake reply
`"OK"`, and 257 successful (all-zero) chunk reads. -/
def c8env : DumpEnv :=
  { reserveOk := true
    hsWriteStatus := .success
    hsReadStatus := .success
    hsReadBytes := [79, 75]
    cmdWriteStatus := .success
    chunks := List.replicate 257 (.success, ([] : List Nat)) }

/-- A well-formed 32777-byte dump answer: `"DATA"` header, all-zero payload,
zero checksum, `"END"` trailer. -/
def c2answer : List Nat :=
  [68, 65, 84, 65] ++ List.replicate SZ_MEMORY 0 ++ [0, 0] ++ [69, 78, 68]

/-! ### Equation lemmas for the fuelled loops -/

theorem findEndF_zero (data : List Nat) (prev off n c : Nat) :
    findEndF data prev 0 off n c = none := by
  unfold findEndF
  split <;> rfl

theorem findEndF_succ (data : List Nat) (prev fuel off n c : Nat) :
    findEndF data prev (fuel + 1) off n c =
      if off + 1 ≤ prev then
        if n % 6 = 0 then
          if off + 1 + 1 > prev then none
          else
            if byteAt data off < 13 + 3 then
              if c + 1 = 17 then some (off + 2)
              else findEndF data prev fuel (off + 2) (n + 1) (c + 1)
            else findEndF data prev fuel (off + 2) (n + 1) 0
        else
          if byteAt data off < 13 + 3 then
            if c + 1 = 17 then some (off + 1)
            else findEndF data prev fuel (off + 1) (n + 1) (c + 1)
          else findEndF data prev fuel (off + 1) (n + 1) 0
      else none := by
  rfl

theorem findEndF_fuel_irrel (data : List Nat) (prev : Nat) :
    ∀ f₁ f₂ off n c, prev ≤ off + f₁ → prev ≤ off + f₂ →
      findEndF data prev f₁ off n c = findEndF data prev f₂ off n c := by
  intro f₁
  induction f₁ with
  | zero =>
    intro f₂ off n c h₁ h₂
    rw [findEndF_zero]
    cases f₂ with
    | zero => rw [findEndF_zero]
    | succ f₂ =>
      rw [findEndF_succ]
      have : ¬ (off + 1 ≤ prev) := by omega
      simp [this]
  | succ f₁ ih =>
    intro f₂ off n c h₁ h₂
    cases f₂ with
    | zero =>
      rw [findEndF_zero, findEndF_succ]
      have : ¬ (off + 1 ≤ prev) := by omega
      simp [this]
    | succ f₂ =>
      rw [findEndF_succ, findEndF_succ]
      by_cases hg : off + 1 ≤ prev
      · simp only [hg, if_true]
        by_cases h6 : n % 6 = 0
        · simp only [h6, if_true]
          by_cases hb : off + 1 + 1 > prev
          · simp [hb]
          · simp only [hb, if_false]
            by_cases hd : byteAt data off < 13 + 3
            · simp only [hd, if_true]
              by_cases hc : c + 1 = 17
              · simp [hc]
              · simp only [hc, if_false]
                exact ih f₂ (off + 2) (n + 1) (c + 1) (by omega) (by omega)
            · simp only [hd, if_false]
              exact ih f₂ (off + 2) (n + 1) 0 (by omega) (by omega)
        · simp only [h6, if_false]
          by_cases hd : byteAt data off < 13 + 3
          · simp only [hd, if_true]
            by_cases hc : c + 1 = 17
            · simp [hc]
            · simp only [hc, if_false]
              exact ih f₂ (off + 1) (n + 1) (c + 1) (by omega) (by omega)
          · simp only [hd, if_false]
            exact ih f₂ (off + 1) (n + 1) 0 (by omega) (by omega)
      · simp [hg]

/-- The step equation of the inner forward walk, exactly mirroring one
iteration of the C `while` loop. -/
theorem findEnd_eq (data : List Nat) (prev off n c : Nat) :
    findEnd data prev off n c =
      if off + 1 ≤ prev then
        if n % 6 = 0 then
          if off + 1 + 1 > prev then none
          else
            if byteAt data off < 13 + 3 then
              if c + 1 = 17 then some (off + 2)
              else findEnd data prev (off + 2) (n + 1) (c + 1)
            else findEnd data prev (off + 2) (n + 1) 0
        else
          if byteAt data off < 13 + 3 then
            if c + 1 = 17 then some (off + 1)
            else findEnd data prev (off + 1) (n + 1) (c + 1)
          else findEnd data prev (off + 1) (n + 1) 0
      else none := by
  unfold findEnd
  rw [findEndF_fuel_irrel data prev prev (prev + 1) off n c (by omega) (by omega),
    findEndF_succ]

theorem scanLoopF_succ (data : List Nat) (fp : Nat) (cb : List Nat → Bool)
    (fuel prev cur : Nat) :
    scanLoopF data fp cb (fuel + 1) prev cur =
      if cur = 0 then (.success, [])
      else
        let c := cur - 1
        if byteAt data c = 0xFF ∧ byteAt data (c + 6) = 0xFE then
          match findEnd data prev (c + 7) 0 0 with
          | none => (.dataformat, [])
          | some endOff =>
            if tsAt data c ≤ fp then (.success, [])
            else
              let d : DiveRec := ⟨c, endOff⟩
              if cb (sliceOf data d) then
                let r := scanLoopF data fp cb fuel c (if 7 ≤ c then c - 7 else 0)
                (r.1, d :: r.2)
              else (.success, [d])
        else scanLoopF data fp cb fuel prev c := by
  rfl

theorem scanLoopF_fuel_irrel (data : List Nat) (fp : Nat) (cb : List Nat → Bool) :
    ∀ f₁ f₂ prev cur, cur ≤ f₁ → cur ≤ f₂ →
      scanLoopF data fp cb f₁ prev cur = scanLoopF data fp cb f₂ prev cur := by
  intro f₁
  induction f₁ with
  | zero =>
    intro f₂ prev cur h₁ _
    have hc : cur = 0 := by omega
    subst hc
    cases f₂ with
    | zero => rfl
    | succ f₂ => rw [scanLoopF_succ]; rfl
  | succ f₁ ih =>
    intro f₂ prev cur h₁ h₂
    by_cases hc : cur = 0
    · subst hc
      cases f₂ with
      | zero => rw [scanLoopF_succ]; rfl
      | succ f₂ => rw [scanLoopF_succ, scanLoopF_succ]; simp
    · cases f₂ with
      | zero => omega
      | succ f₂ =>
        rw [scanLoopF_succ, scanLoopF_succ]
        simp only [hc, if_false]
        by_cases hm : byteAt data (cur - 1) = 0xFF ∧ byteAt data (cur - 1 + 6) = 0xFE
        · simp only [hm, if_true]
          cases hfe : findEnd data prev (cur - 1 + 7) 0 0 with
          | none => rfl
          | some endOff =>
            simp only
            by_cases hts : tsAt data (cur - 1) ≤ fp
            · simp [hts]
            · simp only [hts, if_false]
              by_cases hcb : cb (sliceOf data ⟨cur - 1, endOff⟩) = true
              · simp only [hcb, if_true]
                rw [ih f₂ (cur - 1) (if 7 ≤ cur - 1 then cur - 1 - 7 else 0)
                  (by split <;> omega) (by split <;> omega)]
                simp [hm]
              · simp [hcb]
        · simp only [hm, if_false]
          exact ih f₂ prev (cur - 1) (by omega) (by omega)

/-- The step equation of the backward scan, exactly mirroring one iteration of
the outer C `while` loop of `reefnet_sensus_extract_dives`. -/
theorem scanLoop_eq (data : List Nat) (fp : Nat) (cb : List Nat → Bool)
    (prev cur : Nat) :
    scanLoop data fp cb prev cur =
      if cur = 0 then (.success, [])
      else
        let c := cur - 1
        if byteAt data c = 0xFF ∧ byteAt data (c + 6) = 0xFE then
          match findEnd data prev (c + 7) 0 0 with
          | none => (.dataformat, [])
          | some endOff =>
            if tsAt data c ≤ fp then (.success, [])
            else
              let d : DiveRec := ⟨c, endOff⟩
              if cb (sliceOf data d) then
                let r := scanLoop data fp cb c (if 7 ≤ c then c - 7 else 0)
                (r.1, d :: r.2)
              else (.success, [d])
        else scanLoop data fp cb prev c := by
  unfold scanLoop
  rw [scanLoopF_fuel_irrel data fp cb cur (cur + 1) prev cur (by omega) (by omega),
    scanLoopF_succ]
  by_cases hc : cur = 0
  · simp [hc]
  · simp only [hc, if_false]
    by_cases hm : byteAt data (cur - 1) = 0xFF ∧ byteAt data (cur - 1 + 6) = 0xFE
    · simp only [hm, if_true]
      cases hfe : findEnd data (prev) (cur - 1 + 7) 0 0 with
      | none => rfl
      | some endOff =>
        simp only
        by_cases hts : tsAt data (cur - 1) ≤ fp
        · simp [hts]
        · simp only [hts, if_false]
          by_cases hcb : cb (sliceOf data ⟨cur - 1, endOff⟩) = true
          · simp only [hcb, if_true]
            rw [scanLoopF_fuel_irrel data fp cb cur (if 7 ≤ cur - 1 then cur - 1 - 7 else 0)
              (cur - 1) (if 7 ≤ cur - 1 then cur - 1 - 7 else 0)
              (by split <;> omega) (by split <;> omega)]
            simp [hm]
          · simp [hcb]
    · simp only [hm, if_false]
      exact scanLoopF_fuel_irrel data fp cb cur (cur - 1) prev (cur - 1)
        (by omega) (by omega)


/-! ## Helper lemmas about the dump read loop -/

theorem padTo_length (len : Nat) (bs : List Nat) : (padTo len bs).length = len := by
  simp [padTo]
  omega

theorem readLoop_nil (total n : Nat) (ans : List Nat) :
    readLoop total [] n ans =
      if n < total then (.io, ans, []) else (.success, ans, []) := by
  rfl

theorem readLoop_cons (total n : Nat) (ans : List Nat) (st : DCStatus)
    (bs : List Nat) (rest : List (DCStatus × List Nat)) :
    readLoop total ((st, bs) :: rest) n ans =
      if n < total then
        let len := if total - n > 128 then 128 else total - n
        if st = .success then
          let r := readLoop total rest (n + len) (ans ++ padTo len bs)
          (r.1, r.2.1, (n + len, total) :: r.2.2)
        else (st, ans, [])
      else (.success, ans, []) := by
  rfl

theorem readLoop_success_length (total : Nat) :
    ∀ (chunks : List (DCStatus × List Nat)) (n : Nat) (ans : List Nat),
      n ≤ total →
      (readLoop total chunks n ans).1 = .success →
      (readLoop total chunks n ans).2.1.length = ans.length + (total - n) := by
  intro chunks
  induction chunks with
  | nil =>
    intro n ans hn hs
    rw [readLoop_nil] at hs ⊢
    by_cases h : n < total
    · simp [h] at hs
    · simp [h]
      omega
  | cons c rest ih =>
    intro n ans hn hs
    obtain ⟨st, bs⟩ := c
    rw [readLoop_cons] at hs ⊢
    by_cases h : n < total
    · simp only [h, if_true] at hs ⊢
      by_cases hst : st = DCStatus.success
      · simp only [hst, if_true] at hs ⊢
        have := ih (n + (if total - n > 128 then 128 else total - n))
          (ans ++ padTo (if total - n > 128 then 128 else total - n) bs)
          (by split <;> omega) hs
        simp only [this, List.length_append, padTo_length]
        split <;> omega
      · simp [hst] at hs
    · simp [h]
      omega

theorem readLoop_done (total n : Nat) (chunks : List (DCStatus × List Nat))
    (ans : List Nat) (h : ¬ n < total) :
    readLoop total chunks n ans = (.success, ans, []) := by
  cases chunks with
  | nil => rw [readLoop_nil, if_neg h]
  | cons c rest =>
    obtain ⟨st, bs⟩ := c
    rw [readLoop_cons, if_neg h]

theorem readLoop_progress_chain (total : Nat) :
    ∀ (chunks : List (DCStatus × List Nat)) (n : Nat) (ans : List Nat),
      List.Chain (fun a b => a.1 ≤ b.1) (n, total)
        (readLoop total chunks n ans).2.2 := by
  intro chunks
  induction chunks with
  | nil =>
    intro n ans
    rw [readLoop_nil]
    split <;> exact List.Chain.nil
  | cons c rest ih =>
    intro n ans
    obtain ⟨st, bs⟩ := c
    rw [readLoop_cons]
    by_cases h : n < total
    · simp only [h, if_true]
      by_cases hst : st = DCStatus.success
      · simp only [hst, if_true]
        exact List.Chain.cons (by simp) (ih _ _)
      · simp only [hst, if_false]
        exact List.Chain.nil
    · simp only [h, if_false]
      exact List.Chain.nil

theorem readLoop_progress_bounds (total : Nat) :
    ∀ (chunks : List (DCStatus × List Nat)) (n : Nat) (ans : List Nat),
      ∀ p ∈ (readLoop total chunks n ans).2.2, p.2 = total ∧ p.1 ≤ total := by
  intro chunks
  induction chunks with
  | nil =>
    intro n ans p hp
    rw [readLoop_nil] at hp
    split at hp <;> simp at hp
  | cons c rest ih =>
    intro n ans p hp
    obtain ⟨st, bs⟩ := c
    rw [readLoop_cons] at hp
    by_cases h : n < total
    · simp only [h, if_true] at hp
      by_cases hst : st = DCStatus.success
      · simp only [hst, if_true, List.mem_cons] at hp
        rcases hp with hp | hp
        · subst hp
          constructor
          · rfl
          · simp only
            split <;> omega
        · exact ih _ _ p hp
      · simp [hst] at hp
    · simp [h] at hp

theorem getLast?_cons_of_some {α : Type} (a x : α) (l : List α)
    (h : l.getLast? = some x) : (a :: l).getLast? = some x := by
  cases l with
  | nil => simp at h
  | cons b t => rw [List.getLast?_cons_cons]; exact h

theorem readLoop_complete (total : Nat) :
    ∀ (chunks : List (DCStatus × List Nat)) (n : Nat) (ans : List Nat),
      n < total →
      (∀ c ∈ chunks, c.1 = DCStatus.success) →
      total ≤ n + chunks.length * 128 →
      (readLoop total chunks n ans).1 = .success ∧
      (readLoop total chunks n ans).2.2.getLast? = some (total, total) := by
  intro chunks
  induction chunks with
  | nil =>
    intro n ans hn _ hlen
    simp at hlen
    omega
  | cons c rest ih =>
    intro n ans hn hok hlen
    obtain ⟨st, bs⟩ := c
    have hst : st = DCStatus.success := hok (st, bs) (by simp)
    rw [readLoop_cons]
    simp only [hn, if_true, hst, if_true]
    by_cases hgt : total - n > 128
    · rw [if_pos hgt]
      obtain ⟨hs, hl⟩ := ih (n + 128) (ans ++ padTo 128 bs) (by omega)
        (fun c hc => hok c (by simp [hc]))
        (by simp only [List.length_cons] at hlen; omega)
      exact ⟨hs, getLast?_cons_of_some _ _ _ hl⟩
    · rw [if_neg hgt]
      rw [readLoop_done total _ rest _ (by omega)]
      have heq : n + (total - n) = total := by omega
      simp [heq]

/-! ## Claim theorems -/

/-- **C9**: When the session's `waiting` flag is true, close writes exactly one
cancel byte `0x00` to the transport, returns the cancel write's status (so a
failed write is recorded), and clears `waiting` exactly on a successful write;
when `waiting` is false, close writes zero cancel bytes and succeeds; in both
cases and for every write outcome the session's resources are released. -/
theorem claim_C9_close_cancel (ws : DCStatus) :
    (dc_device_close true ws).written = [0x00] ∧
    (dc_device_close true ws).status = ws ∧
    (dc_device_close true ws).waiting = (if ws = .success then false else true) ∧
    (dc_device_close false ws).written = [] ∧
    (dc_device_close false ws).status = .success ∧
    (dc_device_close false ws).waiting = false ∧
    (dc_device_close true ws).deallocated = true ∧
    (dc_device_close false ws).deallocated = true := by
  by_cases h : ws = DCStatus.success <;>
    simp [dc_device_close, reefnet_sensus_device_close, reefnet_sensus_cancel,
      dc_status_set_error, h]

/-- **C7**: The handshake, given a fixed 12-byte reply delivered by a
successful write and read, fails with a protocol error exactly when the first
two bytes differ from `"OK"` (`79, 75`), and otherwise succeeds, sets
`waiting`, and deterministically decodes `model = reply[2] - '0'` and
`firmware = reply[3] - '0'` (as C `unsigned int` arithmetic, equal to the
plain difference for byte values ≥ 48), `serial` as little-endian 16-bit at
offset 6, and the device clock as little-endian 32-bit at offset 8. -/
theorem claim_C7_handshake_decode (waiting0 : Bool) (rb : List Nat)
    (hlen : rb.length = 12) :
    ((reefnet_sensus_handshake waiting0 .success .success rb).status =
        .protocol ↔ ¬ (byteAt rb 0 = 79 ∧ byteAt rb 1 = 75)) ∧
    (byteAt rb 0 = 79 ∧ byteAt rb 1 = 75 →
      reefnet_sensus_handshake waiting0 .success .success rb =
        ⟨.success, true, asciiDigitValue (byteAt rb 2),
          asciiDigitValue (byteAt rb 3), array_uint16_le rb 6,
          array_uint32_le rb 8, (rb.drop 2).take SZ_HANDSHAKE⟩) ∧
    (∀ b : Nat, 48 ≤ b → b ≤ 255 → asciiDigitValue b = b - 48) := by
  have hpad : padTo 12 rb = rb := by
    simp [padTo, hlen, List.take_of_length_le (le_of_eq hlen)]
  refine ⟨?_, ?_, ?_⟩
  · unfold reefnet_sensus_handshake
    rw [hpad]
    by_cases h : byteAt rb 0 = 79 ∧ byteAt rb 1 = 75 <;> simp [h]
  · intro h
    unfold reefnet_sensus_handshake
    rw [hpad]
    simp [h]
  · intro b h48 h255
    unfold asciiDigitValue
    omega

/-- Shared helper: the dump either fails leaving the caller's buffer exactly
as it was, or succeeds having validated the assembled 32777-byte answer and
appended exactly its payload region. -/
theorem dump_buffer_spec (buf : List Nat) (waiting0 : Bool) (env : DumpEnv) :
    if (reefnet_sensus_device_dump buf waiting0 env).status = .success then
      reefnet_sensus_validate
          (reefnet_sensus_device_dump buf waiting0 env).answer = .success ∧
      (reefnet_sensus_device_dump buf waiting0 env).answer.length =
        4 + SZ_MEMORY + 2 + 3 ∧
      (reefnet_sensus_device_dump buf waiting0 env).buffer =
        buf ++ ((reefnet_sensus_device_dump buf waiting0 env).answer.drop 4).take
          SZ_MEMORY
    else (reefnet_sensus_device_dump buf waiting0 env).buffer = buf := by
  unfold reefnet_sensus_device_dump
  by_cases h1 : env.reserveOk
  · simp only [h1, not_true, if_false]
    set hs := reefnet_sensus_handshake waiting0 env.hsWriteStatus
      env.hsReadStatus env.hsReadBytes with hhs
    by_cases h2 : hs.status = DCStatus.success
    · simp only [h2, ne_eq, not_true, if_false, if_neg, not_false_iff, if_true]
      by_cases h3 : env.cmdWriteStatus = DCStatus.success
      · simp only [h3, not_true, if_false, ne_eq, not_false_iff, if_true]
        set r := readLoop (4 + SZ_MEMORY + 2 + 3) env.chunks 0 [] with hr
        by_cases h4 : r.1 = DCStatus.success
        · simp only [h4, ne_eq, not_true, if_false, not_false_iff, if_true]
          by_cases h5 : reefnet_sensus_validate r.2.1 = DCStatus.success
          · simp only [h5, ne_eq, not_true, if_false, not_false_iff, if_true]
            refine ⟨trivial, ?_, trivial⟩
            have := readLoop_success_length (4 + SZ_MEMORY + 2 + 3) env.chunks 0 []
              (by omega) h4
            simpa using this
          · simp only [h5, ne_eq, not_false_iff, if_true, if_neg h5]
            simp
        · simp only [h4, ne_eq, not_false_iff, if_true, if_neg h4]
          simp
      · simp only [h3, ne_eq, not_false_iff, if_true]
        simp [if_neg h3]
    · simp only [h2, ne_eq, not_false_iff, if_true]
      simp [if_neg h2]
  · simp only [h1, not_false_iff, if_true]
    simp

/-- Witness for C7 at the reply `"OK31"` + serial `0x1234` + clock bytes:
model decodes to 3, firmware to 1. -/
theorem claim_C7_witness :
    ([79, 75, 51, 49, 0, 0, 52, 18, 1, 2, 3, 4] : List Nat).length = 12 ∧
    (((reefnet_sensus_handshake false .success .success
          [79, 75, 51, 49, 0, 0, 52, 18, 1, 2, 3, 4]).status = .protocol ↔
        ¬ (byteAt [79, 75, 51, 49, 0, 0, 52, 18, 1, 2, 3, 4] 0 = 79 ∧
           byteAt [79, 75, 51, 49, 0, 0, 52, 18, 1, 2, 3, 4] 1 = 75)) ∧
      (byteAt [79, 75, 51, 49, 0, 0, 52, 18, 1, 2, 3, 4] 0 = 79 ∧
          byteAt [79, 75, 51, 49, 0, 0, 52, 18, 1, 2, 3, 4] 1 = 75 →
        reefnet_sensus_handshake false .success .success
            [79, 75, 51, 49, 0, 0, 52, 18, 1, 2, 3, 4] =
          ⟨.success, true,
            asciiDigitValue (byteAt [79, 75, 51, 49, 0, 0, 52, 18, 1, 2, 3, 4] 2),
            asciiDigitValue (byteAt [79, 75, 51, 49, 0, 0, 52, 18, 1, 2, 3, 4] 3),
            array_uint16_le [79, 75, 51, 49, 0, 0, 52, 18, 1, 2, 3, 4] 6,
            array_uint32_le [79, 75, 51, 49, 0, 0, 52, 18, 1, 2, 3, 4] 8,
            (([79, 75, 51, 49, 0, 0, 52, 18, 1, 2, 3, 4] : List Nat).drop 2).take
              SZ_HANDSHAKE⟩) ∧
      (∀ b : Nat, 48 ≤ b → b ≤ 255 → asciiDigitValue b = b - 48)) ∧
    asciiDigitValue 51 = 3 := by
  exact ⟨by decide,
    claim_C7_handshake_decode false [79, 75, 51, 49, 0, 0, 52, 18, 1, 2, 3, 4]
      (by decide), by decide⟩

/-- Shared helper: with the buffer reservation succeeding, the dump's progress
event list is either just the initial event (an early handshake/command
failure) or the initial event followed by the read loop's events. -/
theorem dump_progress_cases (buf : List Nat) (waiting0 : Bool) (env : DumpEnv)
    (hres : env.reserveOk = true) :
    (reefnet_sensus_device_dump buf waiting0 env).progress =
      [(0, 4 + SZ_MEMORY + 2 + 3)] ∨
    (reefnet_sensus_device_dump buf waiting0 env).progress =
      (0, 4 + SZ_MEMORY + 2 + 3) ::
        (readLoop (4 + SZ_MEMORY + 2 + 3) env.chunks 0 []).2.2 := by
  unfold reefnet_sensus_device_dump
  simp only [hres, not_true, if_false]
  by_cases h2 : (reefnet_sensus_handshake waiting0 env.hsWriteStatus
      env.hsReadStatus env.hsReadBytes).status = DCStatus.success
  · simp only [h2, ne_eq, not_true, if_false]
    by_cases h3 : env.cmdWriteStatus = DCStatus.success
    · simp only [h3, not_true, if_false, ne_eq, not_false_iff, if_true]
      right
      by_cases h4 : (readLoop (4 + SZ_MEMORY + 2 + 3) env.chunks 0 []).1 =
        DCStatus.success
      · simp only [h4, ne_eq, not_true, if_false, not_false_iff, if_true]
        split <;> rfl
      · simp [h4]
    · simp [h3]
  · simp [h2]

/-- Shared helper: when the handshake and the dump command write succeed, the
progress list is exactly the initial event followed by the read loop's
events. -/
theorem dump_progress_full (buf : List Nat) (waiting0 : Bool) (env : DumpEnv)
    (hres : env.reserveOk = true)
    (h2 : (reefnet_sensus_handshake waiting0 env.hsWriteStatus
      env.hsReadStatus env.hsReadBytes).status = DCStatus.success)
    (h3 : env.cmdWriteStatus = DCStatus.success) :
    (reefnet_sensus_device_dump buf waiting0 env).progress =
      (0, 4 + SZ_MEMORY + 2 + 3) ::
        (readLoop (4 + SZ_MEMORY + 2 + 3) env.chunks 0 []).2.2 := by
  unfold reefnet_sensus_device_dump
  simp only [hres, not_true, if_false, h2, ne_eq, not_true, h3, not_false_iff,
    if_true, if_false]
  by_cases h4 : (readLoop (4 + SZ_MEMORY + 2 + 3) env.chunks 0 []).1 =
    DCStatus.success
  · simp only [h4, ne_eq, not_true, if_false, not_false_iff, if_true]
    split <;> rfl
  · simp [h4]

/-- **C8**: Within one dump (with the buffer reservation succeeding), the
first progress event is `(0, 4 + SZ_MEMORY + 2 + 3)`, every event carries
that same maximum with `current ≤ maximum`, the currents are monotonically
non-decreasing, and when the handshake, command write and all 257 chunked
reads succeed, the final event's current equals the maximum. -/
theorem claim_C8_progress_monotone (buf : List Nat) (waiting0 : Bool)
    (env : DumpEnv) (hres : env.reserveOk = true) :
    (reefnet_sensus_device_dump buf waiting0 env).progress.head? =
      some (0, 4 + SZ_MEMORY + 2 + 3) ∧
    (∀ p ∈ (reefnet_sensus_device_dump buf waiting0 env).progress,
      p.2 = 4 + SZ_MEMORY + 2 + 3 ∧ p.1 ≤ p.2) ∧
    List.Chain' (fun a b : Nat × Nat => a.1 ≤ b.1)
      (reefnet_sensus_device_dump buf waiting0 env).progress ∧
    (env.hsWriteStatus = .success → env.hsReadStatus = .success →
      byteAt (padTo 12 env.hsReadBytes) 0 = 79 →
      byteAt (padTo 12 env.hsReadBytes) 1 = 75 →
      env.cmdWriteStatus = .success →
      (∀ c ∈ env.chunks, c.1 = DCStatus.success) →
      257 ≤ env.chunks.length →
      (reefnet_sensus_device_dump buf waiting0 env).progress.getLast? =
        some (4 + SZ_MEMORY + 2 + 3, 4 + SZ_MEMORY + 2 + 3)) := by
  refine ⟨?_, ?_, ?_, ?_⟩
  · rcases dump_progress_cases buf waiting0 env hres with h | h <;> rw [h] <;> rfl
  · rcases dump_progress_cases buf waiting0 env hres with h | h <;> rw [h]
    · intro p hp
      simp only [List.mem_singleton] at hp
      subst hp
      exact ⟨rfl, by omega⟩
    · intro p hp
      rcases List.mem_cons.mp hp with hp | hp
      · subst hp
        exact ⟨rfl, by omega⟩
      · have hb := readLoop_progress_bounds _ env.chunks 0 [] p hp
        exact ⟨hb.1, by rw [hb.1]; exact hb.2⟩
  · rcases dump_progress_cases buf waiting0 env hres with h | h <;> rw [h]
    · simp
    · exact readLoop_progress_chain (4 + SZ_MEMORY + 2 + 3) env.chunks 0 []
  · intro hw hr hb0 hb1 hcmd hok hlen
    have h2 : (reefnet_sensus_handshake waiting0 env.hsWriteStatus
        env.hsReadStatus env.hsReadBytes).status = DCStatus.success := by
      unfold reefnet_sensus_handshake
      simp [hw, hr, hb0, hb1]
    rw [dump_progress_full buf waiting0 env hres h2 hcmd]
    obtain ⟨_, hl⟩ := readLoop_complete (4 + SZ_MEMORY + 2 + 3) env.chunks 0 []
      (by omega) hok (by simp only [Nat.zero_add]; calc
        4 + SZ_MEMORY + 2 + 3 ≤ 257 * 128 := by simp [SZ_MEMORY]
        _ ≤ env.chunks.length * 128 := Nat.mul_le_mul_right 128 hlen)
    exact getLast?_cons_of_some _ _ _ hl

/-- Witness for C8: the all-successful transport environment `c8env`. -/
theorem claim_C8_witness :
    c8env.reserveOk = true ∧
    c8env.hsWriteStatus = .success ∧ c8env.hsReadStatus = .success ∧
    byteAt (padTo 12 c8env.hsReadBytes) 0 = 79 ∧
    byteAt (padTo 12 c8env.hsReadBytes) 1 = 75 ∧
    c8env.cmdWriteStatus = .success ∧
    (∀ c ∈ c8env.chunks, c.1 = DCStatus.success) ∧
    257 ≤ c8env.chunks.length ∧
    (reefnet_sensus_device_dump [] false c8env).progress.head? =
      some (0, 4 + SZ_MEMORY + 2 + 3) ∧
    (reefnet_sensus_device_dump [] false c8env).progress.getLast? =
      some (4 + SZ_MEMORY + 2 + 3, 4 + SZ_MEMORY + 2 + 3) := by
  have h := claim_C8_progress_monotone [] false c8env rfl
  refine ⟨rfl, rfl, rfl, by decide, by decide, rfl, ?_, ?_, h.1, ?_⟩
  · intro c hc
    simp only [c8env, List.mem_replicate] at hc
    rw [hc.2]
  · rw [show c8env.chunks = List.replicate 257 (DCStatus.success, ([] : List Nat))
      from rfl, List.length_replicate]
  · refine h.2.2.2 rfl rfl (by decide) (by decide) rfl ?_ ?_
    · intro c hc
      simp only [c8env, List.mem_replicate] at hc
      rw [hc.2]
    · rw [show c8env.chunks = List.replicate 257 (DCStatus.success, ([] : List Nat))
        from rfl, List.length_replicate]

theorem foldl_add_init (l : List Nat) :
    ∀ init : Nat, l.foldl (fun a b => a + b) init = init + l.sum := by
  induction l with
  | nil => intro init; simp
  | cons a t ih =>
    intro init
    simp only [List.foldl_cons, List.sum_cons, ih]
    omega

theorem sum_set_getD (l : List Nat) :
    ∀ i v : Nat, i < l.length → (l.set i v).sum + l.getD i 0 = l.sum + v := by
  induction l with
  | nil => intro i v h; simp at h
  | cons a t ih =>
    intro i v h
    cases i with
    | zero => simp [List.set]; omega
    | succ j =>
      simp only [List.set, List.sum_cons, List.getD_cons_succ]
      have := ih j v (by simpa using h)
      omega

theorem byteAt_set_ne (l : List Nat) (i j v : Nat) (h : i ≠ j) :
    byteAt (l.set i v) j = byteAt l j := by
  unfold byteAt
  rw [List.getD_eq_getElem?_getD, List.getD_eq_getElem?_getD,
    List.getElem?_set_ne h]

theorem byteAt_lt_of_mem_lt (l : List Nat) (i : Nat)
    (hbytes : ∀ b ∈ l, b < 256) (h : i < l.length) : byteAt l i < 256 := by
  unfold byteAt
  rw [List.getD_eq_getElem?_getD, List.getElem?_eq_getElem h]
  exact hbytes _ (List.getElem_mem h)

theorem take4_set (answer : List Nat) (i v : Nat) (h4 : 4 ≤ i) :
    (answer.set i v).take 4 = answer.take 4 := by
  apply List.ext_getElem?
  intro k
  rw [List.getElem?_take, List.getElem?_take]
  split
  · rw [List.getElem?_set_ne (by omega)]
  · rfl

theorem byteAt_payload (answer : List Nat) (j : Nat) (hj : j < SZ_MEMORY) :
    byteAt ((answer.drop 4).take SZ_MEMORY) j = byteAt answer (4 + j) := by
  unfold byteAt
  rw [List.getD_eq_getElem?_getD, List.getD_eq_getElem?_getD,
    List.getElem?_take, if_pos hj, List.getElem?_drop]

theorem payload_set (answer : List Nat) (i v : Nat)
    (hlen : answer.length = 4 + SZ_MEMORY + 2 + 3) (h4 : 4 ≤ i)
    (hSZ : i < 4 + SZ_MEMORY) :
    ((answer.set i v).drop 4).take SZ_MEMORY =
      ((answer.drop 4).take SZ_MEMORY).set (i - 4) v := by
  have hX : ((answer.drop 4).take SZ_MEMORY).length = SZ_MEMORY := by
    simp only [List.length_take, List.length_drop, hlen]
    simp [SZ_MEMORY]
  apply List.ext_getElem?
  intro k
  by_cases hk : k = i - 4
  · subst hk
    rw [List.getElem?_set_self (by rw [hX]; simp only [SZ_MEMORY] at *; omega)]
    rw [List.getElem?_take, if_pos (by simp only [SZ_MEMORY] at *; omega),
      List.getElem?_drop]
    have : 4 + (i - 4) = i := by omega
    rw [this, List.getElem?_set_self (by simp only [SZ_MEMORY] at *; omega)]
  · rw [List.getElem?_set_ne (by omega)]
    rw [List.getElem?_take, List.getElem?_take]
    split
    · rw [List.getElem?_drop, List.getElem?_drop,
        List.getElem?_set_ne (by omega)]
    · rfl

/-- **C2**: For every 32777-byte dump reply with correct `"DATA"` header and
`"END"` trailer, the dump's checksum validation succeeds iff the 2-byte
little-endian value at offset `4 + 32768` equals the additive 16-bit sum
(mod 2^16, initial value 0) of the 32768 payload bytes at offsets 4..32771;
mutating any single payload byte while keeping the transmitted checksum makes
validation fail with a protocol error. -/
theorem claim_C2_checksum_validation (answer : List Nat)
    (hlen : answer.length = 4 + SZ_MEMORY + 2 + 3)
    (hbytes : ∀ b ∈ answer, b < 256)
    (hhdr : answer.take 4 = [68, 65, 84, 65])
    (htrl : answer.drop (4 + SZ_MEMORY + 2) = [69, 78, 68]) :
    (reefnet_sensus_validate answer = .success ↔
      array_uint16_le answer (4 + SZ_MEMORY) =
        checksum_add_uint16 ((answer.drop 4).take SZ_MEMORY) 0) ∧
    (∀ i v, 4 ≤ i → i < 4 + SZ_MEMORY → v < 256 → v ≠ byteAt answer i →
      reefnet_sensus_validate answer = .success →
      reefnet_sensus_validate (answer.set i v) = .protocol) := by
  have hcrcmod : array_uint16_le answer (4 + SZ_MEMORY) % 65536 =
      array_uint16_le answer (4 + SZ_MEMORY) := by
    apply Nat.mod_eq_of_lt
    have h1 := byteAt_lt_of_mem_lt answer (4 + SZ_MEMORY) hbytes
      (by simp only [hlen, SZ_MEMORY]; omega)
    have h2 := byteAt_lt_of_mem_lt answer (4 + SZ_MEMORY + 1) hbytes
      (by simp only [hlen, SZ_MEMORY]; omega)
    unfold array_uint16_le
    omega
  constructor
  · unfold reefnet_sensus_validate
    rw [if_pos ⟨hhdr, htrl⟩, hcrcmod]
    constructor
    · intro h
      by_contra hne
      rw [if_neg hne] at h
      exact absurd h (by intro hc; cases hc)
    · intro h
      rw [if_pos h]
  · intro i v h4 hSZ hv hne hsucc
    have hcceq : array_uint16_le answer (4 + SZ_MEMORY) =
        checksum_add_uint16 ((answer.drop 4).take SZ_MEMORY) 0 := by
      unfold reefnet_sensus_validate at hsucc
      rw [if_pos ⟨hhdr, htrl⟩, hcrcmod] at hsucc
      by_contra hne'
      rw [if_neg hne'] at hsucc
      cases hsucc
    have hXlen : ((answer.drop 4).take SZ_MEMORY).length = SZ_MEMORY := by
      simp only [List.length_take, List.length_drop, hlen]
      simp [SZ_MEMORY]
    have hhdr' : (answer.set i v).take 4 = [68, 65, 84, 65] := by
      rw [take4_set answer i v h4, hhdr]
    have htrl' : (answer.set i v).drop (4 + SZ_MEMORY + 2) = [69, 78, 68] := by
      rw [List.drop_set_of_lt v answer (by omega), htrl]
    have hcrc' : array_uint16_le (answer.set i v) (4 + SZ_MEMORY) =
        array_uint16_le answer (4 + SZ_MEMORY) := by
      unfold array_uint16_le
      rw [byteAt_set_ne answer i (4 + SZ_MEMORY) v (by omega),
        byteAt_set_ne answer i (4 + SZ_MEMORY + 1) v (by omega)]
    have hsum := sum_set_getD ((answer.drop 4).take SZ_MEMORY) (i - 4) v
      (by rw [hXlen]; simp only [SZ_MEMORY] at *; omega)
    have hold : ((answer.drop 4).take SZ_MEMORY).getD (i - 4) 0 = byteAt answer i := by
      have := byteAt_payload answer (i - 4) (by simp only [SZ_MEMORY] at *; omega)
      unfold byteAt at this ⊢
      rw [this]
      congr 1
      omega
    have holdlt : byteAt answer i < 256 :=
      byteAt_lt_of_mem_lt answer i hbytes
        (by simp only [hlen, SZ_MEMORY] at *; omega)
    unfold reefnet_sensus_validate
    rw [if_pos ⟨hhdr', htrl'⟩]
    rw [payload_set answer i v hlen h4 hSZ]
    rw [hcrc', hcrcmod]
    have hne2 : ¬ (array_uint16_le answer (4 + SZ_MEMORY) =
        checksum_add_uint16 (((answer.drop 4).take SZ_MEMORY).set (i - 4) v) 0) := by
      rw [hcceq]
      unfold checksum_add_uint16
      rw [foldl_add_init, foldl_add_init]
      simp only [Nat.zero_add]
      rw [hold] at hsum
      intro hcon
      omega
    rw [if_neg hne2]

/-- Witness for C2: the all-zero-payload answer `c2answer` with zero
checksum. -/
theorem claim_C2_witness :
    c2answer.length = 4 + SZ_MEMORY + 2 + 3 ∧
    (∀ b ∈ c2answer, b < 256) ∧
    c2answer.take 4 = [68, 65, 84, 65] ∧
    c2answer.drop (4 + SZ_MEMORY + 2) = [69, 78, 68] ∧
    ((reefnet_sensus_validate c2answer = .success ↔
      array_uint16_le c2answer (4 + SZ_MEMORY) =
        checksum_add_uint16 ((c2answer.drop 4).take SZ_MEMORY) 0) ∧
    (∀ i v, 4 ≤ i → i < 4 + SZ_MEMORY → v < 256 → v ≠ byteAt c2answer i →
      reefnet_sensus_validate c2answer = .success →
      reefnet_sensus_validate (c2answer.set i v) = .protocol)) := by
  have hlen : c2answer.length = 4 + SZ_MEMORY + 2 + 3 := by
    rw [show c2answer = ([68, 65, 84, 65] ++ List.replicate SZ_MEMORY 0 ++
      [0, 0]) ++ [69, 78, 68] from rfl]
    rw [List.length_append, List.length_append, List.length_append,
      List.length_replicate]
    rfl
  have hbytes : ∀ b ∈ c2answer, b < 256 := by
    intro b hb
    unfold c2answer at hb
    rcases List.mem_append.mp hb with h | h
    · rcases List.mem_append.mp h with h | h
      · rcases List.mem_append.mp h with h | h
        · fin_cases h <;> omega
        · rw [List.eq_of_mem_replicate h]; omega
      · fin_cases h <;> omega
    · fin_cases h <;> omega
  have hhdr : c2answer.take 4 = [68, 65, 84, 65] := by
    have h1 : c2answer = [68, 65, 84, 65] ++
        (List.replicate SZ_MEMORY 0 ++ [0, 0] ++ [69, 78, 68]) := by
      unfold c2answer
      simp only [List.append_assoc]
    rw [h1, List.take_left' (by rfl)]
  have htrl : c2answer.drop (4 + SZ_MEMORY + 2) = [69, 78, 68] := by
    have h1 : c2answer = ([68, 65, 84, 65] ++ List.replicate SZ_MEMORY 0 ++
        [0, 0]) ++ [69, 78, 68] := rfl
    rw [h1, List.drop_left' (by
      rw [List.length_append, List.length_append, List.length_replicate]
      rfl)]
  exact ⟨hlen, hbytes, hhdr, htrl,
    claim_C2_checksum_validation c2answer hlen hbytes hhdr htrl⟩

/-- **C5**: If the dump fails — I/O or timeout on any read, `"DATA"`/`"END"`
header or trailer mismatch, or checksum mismatch — it returns that error
status and appends no bytes to the caller's output buffer; the `SZ_MEMORY`
payload bytes are appended only after every validation has succeeded, so a
failed dump never returns a partially filled buffer as valid output. -/
theorem claim_C5_no_partial_output (buf : List Nat) (waiting0 : Bool)
    (env : DumpEnv) :
    if (reefnet_sensus_device_dump buf waiting0 env).status = .success then
      reefnet_sensus_validate
          (reefnet_sensus_device_dump buf waiting0 env).answer = .success ∧
      (reefnet_sensus_device_dump buf waiting0 env).answer.length =
        4 + SZ_MEMORY + 2 + 3 ∧
      (reefnet_sensus_device_dump buf waiting0 env).buffer =
        buf ++ ((reefnet_sensus_device_dump buf waiting0 env).answer.drop 4).take
          SZ_MEMORY
    else (reefnet_sensus_device_dump buf waiting0 env).buffer = buf :=
  dump_buffer_spec buf waiting0 env

/-- **C10**: The top-level dump entry point empties the caller's buffer before
delegating to the backend dump: the result is independent of the buffer's
prior contents, a successful dump leaves exactly the `SZ_MEMORY` validated
payload bytes, and a failed dump leaves the buffer empty. -/
theorem claim_C10_dump_clears_buffer (prior : List Nat) (waiting0 : Bool)
    (env : DumpEnv) :
    (∀ prior' : List Nat,
      dc_device_dump prior waiting0 env = dc_device_dump prior' waiting0 env) ∧
    (if (dc_device_dump prior waiting0 env).status = .success then
      (dc_device_dump prior waiting0 env).buffer =
        ((dc_device_dump prior waiting0 env).answer.drop 4).take SZ_MEMORY ∧
      (dc_device_dump prior waiting0 env).buffer.length = SZ_MEMORY
    else (dc_device_dump prior waiting0 env).buffer = []) := by
  constructor
  · intro prior'
    rfl
  · have h := dump_buffer_spec [] waiting0 env
    have hd : dc_device_dump prior waiting0 env =
        reefnet_sensus_device_dump [] waiting0 env := rfl
    rw [hd]
    by_cases hs : (reefnet_sensus_device_dump [] waiting0 env).status =
      DCStatus.success
    · rw [if_pos hs] at h ⊢
      obtain ⟨_, hlen, hbuf⟩ := h
      rw [hbuf]
      refine ⟨by simp, ?_⟩
      simp only [List.nil_append, List.length_take, List.length_drop]
      simp only [SZ_MEMORY] at hlen ⊢
      omega
    · rw [if_neg hs] at h ⊢
      exact h

/-! ## Extraction claims -/

/-- Shared helper: if the scan run with a never-stopping visitor reports
`d` first, then the scan run with a visitor that rejects `d`'s slice stops
successfully right after that single invocation. -/
theorem scanLoop_early_exit (data : List Nat) (fp : Nat) (cb : List Nat → Bool) :
    ∀ cur prev st d rest,
      scanLoop data fp (fun _ => true) prev cur = (st, d :: rest) →
      cb (sliceOf data d) = false →
      scanLoop data fp cb prev cur = (.success, [d]) := by
  intro cur
  induction cur using Nat.strong_induction_on with
  | _ cur ih =>
    intro prev st d rest hall hstop
    rw [scanLoop_eq] at hall ⊢
    by_cases hc : cur = 0
    · simp [hc] at hall
    · simp only [hc, if_false] at hall ⊢
      by_cases hm : byteAt data (cur - 1) = 0xFF ∧ byteAt data (cur - 1 + 6) = 0xFE
      · simp only [hm, if_true] at hall ⊢
        cases hfe : findEnd data prev (cur - 1 + 7) 0 0 with
        | none =>
          rw [hfe] at hall
          simp at hall
        | some e =>
          rw [hfe] at hall
          simp only [and_self, if_true] at hall ⊢
          by_cases hts : tsAt data (cur - 1) ≤ fp
          · rw [if_pos hts] at hall
            exact absurd (congrArg Prod.snd hall) (by simp)
          · rw [if_neg hts] at hall ⊢
            have hd : (⟨cur - 1, e⟩ : DiveRec) = d :=
              ((List.cons.injEq _ _ _ _).mp (congrArg Prod.snd hall)).1
            rw [hd, hstop]
            simp
      · simp only [hm, if_false] at hall ⊢
        exact ih (cur - 1) (by omega) prev st d rest hall hstop

/-- **C6**: For every buffer in which the (never-stopping) extraction would
report at least one dive, if the visitor returns zero ("stop") on the first
dive it receives, extraction returns success immediately having invoked the
visitor exactly once, regardless of how many older dives remain. -/
theorem claim_C6_early_exit (data : List Nat) (fp : Nat) (cb : List Nat → Bool)
    (st : DCStatus) (d : DiveRec) (rest : List DiveRec)
    (hall : reefnet_sensus_extract_dives data fp (fun _ => true) = (st, d :: rest))
    (hstop : cb (sliceOf data d) = false) :
    reefnet_sensus_extract_dives data fp cb = (.success, [d]) :=
  scanLoop_early_exit data fp cb _ _ st d rest hall hstop

/-- Witness for C6 on the two-dive buffer: the always-false visitor is
invoked once, on the newest dive, and extraction succeeds. -/
theorem claim_C6_witness :
    reefnet_sensus_extract_dives twoDives 0 (fun _ => true) =
      (.success, [⟨28, 55⟩, ⟨0, 27⟩]) ∧
    (fun _ : List Nat => false) (sliceOf twoDives ⟨28, 55⟩) = false ∧
    reefnet_sensus_extract_dives twoDives 0 (fun _ => false) =
      (.success, [⟨28, 55⟩]) := by
  refine ⟨by decide, rfl, ?_⟩
  exact claim_C6_early_exit twoDives 0 (fun _ => false) .success ⟨28, 55⟩
    [⟨0, 27⟩] (by decide) rfl

/-- Shared helper: if no examined index below `cur` carries the sentinel
pair, the scan reaches `lo` without reporting anything. -/
theorem scanLoop_skip (data : List Nat) (fp : Nat) (cb : List Nat → Bool)
    (prev : Nat) :
    ∀ cur lo, lo ≤ cur → (∀ j, lo ≤ j → j < cur → ¬ marker data j) →
      scanLoop data fp cb prev cur = scanLoop data fp cb prev lo := by
  intro cur
  induction cur using Nat.strong_induction_on with
  | _ cur ih =>
    intro lo hle hnm
    by_cases heq : cur = lo
    · rw [heq]
    · have hc0 : cur ≠ 0 := by omega
      rw [scanLoop_eq]
      simp only [hc0, if_false]
      have hnm' : ¬ (byteAt data (cur - 1) = 0xFF ∧
          byteAt data (cur - 1 + 6) = 0xFE) :=
        hnm (cur - 1) (by omega) (by omega)
      rw [if_neg hnm']
      exact ih (cur - 1) (by omega) lo (by omega)
        (fun j hj1 hj2 => hnm j hj1 (by omega))

/-- **C3 (counterexample)**: In the 8-byte buffer `[0, FF, 0, 0, 0, 0, 0, FE]`
the marker pair sits exactly at index `size - 7 = 1`, yet extraction returns
success with zero dives — the index `size - 7` is never examined and is not
treated as a dive start (the cursor is decremented before the test). Had that
index been examined, the result would have been a data-format error, as the
contrast buffer `[FF, 0, 0, 0, 0, 0, FE, 0]` — the same situation at the
examined index `0 = size - 8` — shows. -/
theorem claim_C3_counterexample :
    byteAt [0, 0xFF, 0, 0, 0, 0, 0, 0xFE]
      (([0, 0xFF, 0, 0, 0, 0, 0, 0xFE] : List Nat).length - 7) = 0xFF ∧
    byteAt [0, 0xFF, 0, 0, 0, 0, 0, 0xFE]
      (([0, 0xFF, 0, 0, 0, 0, 0, 0xFE] : List Nat).length - 7 + 6) = 0xFE ∧
    reefnet_sensus_extract_dives [0, 0xFF, 0, 0, 0, 0, 0, 0xFE] 0
      (fun _ => true) = (.success, []) ∧
    reefnet_sensus_extract_dives [0xFF, 0, 0, 0, 0, 0, 0xFE, 0] 0
      (fun _ => true) = (.dataformat, []) := by
  decide

/-- **C3 (amended)**: The extraction scan initializes its cursor to
`size - 7` and decrements it before each marker test, so the examined indices
are `size - 8` down to `0` (index `size - 7` is never examined); an examined
index `i` is treated as a dive start exactly when `data[i] == 0xFF` and
`data[i+6] == 0xFE`; after a dive at `c` the cursor is set to `c - 7`, so
scanning resumes at index `c - 8`. Consequently, whenever no index `i` with
`i + 7 < size` carries the marker pair, extraction succeeds with zero dives,
whatever markers sit at or above index `size - 7`. -/
theorem claim_C3_amended (data : List Nat) (fp : Nat) (cb : List Nat → Bool)
    (h : ∀ i, i + 7 < data.length → ¬ marker data i) :
    reefnet_sensus_extract_dives data fp cb = (.success, []) := by
  unfold reefnet_sensus_extract_dives
  by_cases h7 : 7 ≤ data.length
  · rw [if_pos h7]
    rw [scanLoop_skip data fp cb data.length (data.length - 7) 0 (by omega)
      (fun j _ hj2 => h j (by omega))]
    rw [scanLoop_eq]
    simp
  · rw [if_neg h7]
    rw [scanLoop_eq]
    simp

/-- Witness for the amended C3: a 10-byte buffer with no sentinel byte
anywhere below `size - 7`. -/
theorem claim_C3_amended_witness :
    (∀ i, i + 7 < ([1, 2, 3, 4, 5, 6, 7, 8, 9, 10] : List Nat).length →
      ¬ marker [1, 2, 3, 4, 5, 6, 7, 8, 9, 10] i) ∧
    reefnet_sensus_extract_dives [1, 2, 3, 4, 5, 6, 7, 8, 9, 10] 0
      (fun _ => true) = (.success, []) := by
  have h : ∀ i, i + 7 < ([1, 2, 3, 4, 5, 6, 7, 8, 9, 10] : List Nat).length →
      ¬ marker [1, 2, 3, 4, 5, 6, 7, 8, 9, 10] i := by
    have hb : ∀ i < 3, ¬ marker [1, 2, 3, 4, 5, 6, 7, 8, 9, 10] i := by decide
    intro i hi
    simp only [List.length_cons, List.length_nil] at hi
    exact hb i (by omega)
  exact ⟨h, claim_C3_amended [1, 2, 3, 4, 5, 6, 7, 8, 9, 10] 0 (fun _ => true) h⟩

theorem walkSpec_nil (n c : Nat) : walkSpec [] n c = none := rfl

theorem walkSpec_cons_nil_of_mod0 (depth n c : Nat) (h : n % 6 = 0) :
    walkSpec [depth] n c = none := by
  simp [walkSpec, h]

theorem walkSpec_cons_cons (depth t : Nat) (rest2 : List Nat) (n c : Nat) :
    walkSpec (depth :: t :: rest2) n c =
      if n % 6 = 0 then
        if depth < 13 + 3 then
          if c + 1 = 17 then some 2
          else (walkSpec rest2 (n + 1) (c + 1)).map (· + 2)
        else (walkSpec rest2 (n + 1) 0).map (· + 2)
      else
        if depth < 13 + 3 then
          if c + 1 = 17 then some 1
          else (walkSpec (t :: rest2) (n + 1) (c + 1)).map (· + 1)
        else (walkSpec (t :: rest2) (n + 1) 0).map (· + 1) := by
  rw [walkSpec]

theorem walkSpec_cons_of_mod (depth : Nat) (rest : List Nat) (n c : Nat)
    (h : n % 6 ≠ 0) :
    walkSpec (depth :: rest) n c =
      if depth < 13 + 3 then
        if c + 1 = 17 then some 1
        else (walkSpec rest (n + 1) (c + 1)).map (· + 1)
      else (walkSpec rest (n + 1) 0).map (· + 1) := by
  rw [walkSpec.eq_def]
  simp only [if_neg h]

theorem window_nil (data : List Nat) (prev off : Nat) (h : prev ≤ off) :
    (data.take prev).drop off = [] := by
  apply List.drop_eq_nil_of_le
  rw [List.length_take]
  omega

theorem window_cons (data : List Nat) (prev off : Nat) (hoff : off < prev)
    (hprev : prev ≤ data.length) :
    (data.take prev).drop off =
      byteAt data off :: (data.take prev).drop (off + 1) := by
  have hlt : off < (data.take prev).length := by
    rw [List.length_take]
    omega
  rw [List.drop_eq_getElem_cons hlt]
  congr 1
  rw [List.getElem_take]
  unfold byteAt
  rw [List.getD_eq_getElem?_getD, List.getElem?_eq_getElem (by omega)]
  rfl

/-- Shared helper (refinement): the index-based forward walk of the C source
computes exactly the specification-side walk over the window of bytes
available to it, offset by the walk's start. -/
theorem findEnd_walkSpec (data : List Nat) (prev : Nat)
    (hprev : prev ≤ data.length) :
    ∀ k off n c, prev - off ≤ k →
      findEnd data prev off n c =
        (walkSpec ((data.take prev).drop off) n c).map (off + ·) := by
  intro k
  induction k with
  | zero =>
    intro off n c hk
    rw [findEnd_eq, if_neg (by omega), window_nil data prev off (by omega),
      walkSpec_nil]
    rfl
  | succ k ih =>
    intro off n c hk
    rw [findEnd_eq]
    by_cases hg : off + 1 ≤ prev
    · rw [if_pos hg, window_cons data prev off (by omega) hprev]
      by_cases h6 : n % 6 = 0
      · rw [if_pos h6]
        by_cases hb : off + 1 + 1 > prev
        · rw [if_pos hb, window_nil data prev (off + 1) (by omega),
            walkSpec_cons_nil_of_mod0 _ _ _ h6]
          rfl
        · rw [if_neg hb, window_cons data prev (off + 1) (by omega) hprev,
            walkSpec_cons_cons, if_pos h6]
          by_cases hd : byteAt data off < 13 + 3
          · rw [if_pos hd, if_pos hd]
            by_cases hc : c + 1 = 17
            · rw [if_pos hc, if_pos hc]
              rfl
            · rw [if_neg hc, if_neg hc]
              rw [ih (off + 2) (n + 1) (c + 1) (by omega)]
              cases walkSpec ((data.take prev).drop (off + 2)) (n + 1) (c + 1) with
              | none => rfl
              | some x => simp [Option.map]; omega
          · rw [if_neg hd, if_neg hd]
            rw [ih (off + 2) (n + 1) 0 (by omega)]
            cases walkSpec ((data.take prev).drop (off + 2)) (n + 1) 0 with
            | none => rfl
            | some x => simp [Option.map]; omega
      · rw [if_neg h6, walkSpec_cons_of_mod _ _ _ _ h6]
        by_cases hd : byteAt data off < 13 + 3
        · rw [if_pos hd, if_pos hd]
          by_cases hc : c + 1 = 17
          · rw [if_pos hc, if_pos hc]
            rfl
          · rw [if_neg hc, if_neg hc]
            rw [ih (off + 1) (n + 1) (c + 1) (by omega)]
            cases walkSpec ((data.take prev).drop (off + 1)) (n + 1) (c + 1) with
            | none => rfl
            | some x => simp [Option.map]; omega
        · rw [if_neg hd, if_neg hd]
          rw [ih (off + 1) (n + 1) 0 (by omega)]
          cases walkSpec ((data.take prev).drop (off + 1)) (n + 1) 0 with
          | none => rfl
          | some x => simp [Option.map]; omega
    · rw [if_neg hg, window_nil data prev off (by omega), walkSpec_nil]
      rfl

/-- **C4**: The forward walk locating a dive's end consumes one depth byte
per sample plus one temperature byte on every 6th sample, and finds the end
exactly when 17 consecutive depth samples below the threshold `13 + 3 = 16`
have been seen (this is the refinement of the C index walk by the
specification-side `walkSpec` over the walk's byte window, bounded by the
previous dive's start or the buffer end); and whenever the first examined
marker's walk finds no end, the whole extraction fails with a data-format
error, performing no further visitor invocations. -/
theorem claim_C4_forward_walk :
    (∀ (data : List Nat) (prev off n c : Nat), prev ≤ data.length →
      findEnd data prev off n c =
        (walkSpec ((data.take prev).drop off) n c).map (off + ·)) ∧
    (∀ (data : List Nat) (fp : Nat) (cb : List Nat → Bool) (prev cur i : Nat),
      i < cur → marker data i →
      (∀ j, i < j → j < cur → ¬ marker data j) →
      findEnd data prev (i + 7) 0 0 = none →
      scanLoop data fp cb prev cur = (.dataformat, [])) := by
  constructor
  · intro data prev off n c hprev
    exact findEnd_walkSpec data prev hprev (prev - off) off n c (by omega)
  · intro data fp cb prev cur i hi hm hnm hfe
    rw [scanLoop_skip data fp cb prev cur (i + 1) (by omega)
      (fun j h1 h2 => hnm j (by omega) h2)]
    rw [scanLoop_eq]
    simp only [Nat.succ_ne_zero, if_false, Nat.add_sub_cancel]
    rw [if_pos (show byteAt data i = 0xFF ∧ byteAt data (i + 6) = 0xFE from hm),
      hfe]

/-- Witness for C4: the refinement evaluated on the two-dive buffer's newest
dive, and the data-format failure on a buffer whose only (examined) marker
has no dive end. -/
theorem claim_C4_witness :
    (56 ≤ twoDives.length ∧
      findEnd twoDives 56 35 0 0 =
        (walkSpec ((twoDives.take 56).drop 35) 0 0).map (35 + ·)) ∧
    (0 < 1 ∧ marker [0xFF, 0, 0, 0, 0, 0, 0xFE, 0] 0 ∧
      findEnd [0xFF, 0, 0, 0, 0, 0, 0xFE, 0] 8 (0 + 7) 0 0 = none ∧
      scanLoop [0xFF, 0, 0, 0, 0, 0, 0xFE, 0] 0 (fun _ => true) 8 1 =
        (.dataformat, [])) := by
  refine ⟨⟨by decide, ?_⟩, by decide, by decide, by decide, ?_⟩
  · exact claim_C4_forward_walk.1 twoDives 56 35 0 0 (by decide)
  · exact claim_C4_forward_walk.2 [0xFF, 0, 0, 0, 0, 0, 0xFE, 0] 0
      (fun _ => true) 8 1 0 (by decide) (by decide)
      (fun j h1 h2 => absurd (Nat.lt_of_lt_of_le h2 (by omega))
        (Nat.not_lt.mpr h1)) (by decide)

/-- Shared helper: every dive the scan reports has a timestamp strictly above
the fingerprint cursor (the `timestamp <= device->timestamp` check precedes
every visitor invocation). -/
theorem scanLoop_ts_gt (data : List Nat) (fp : Nat) (cb : List Nat → Bool) :
    ∀ cur prev d, d ∈ (scanLoop data fp cb prev cur).2 →
      fp < tsAt data d.start := by
  intro cur
  induction cur using Nat.strong_induction_on with
  | _ cur ih =>
    intro prev d hd
    rw [scanLoop_eq] at hd
    by_cases hc : cur = 0
    · simp [hc] at hd
    · simp only [hc, if_false] at hd
      by_cases hm : byteAt data (cur - 1) = 0xFF ∧
          byteAt data (cur - 1 + 6) = 0xFE
      · rw [if_pos hm] at hd
        cases hfe : findEnd data prev (cur - 1 + 7) 0 0 with
        | none =>
          rw [hfe] at hd
          simp at hd
        | some e =>
          rw [hfe] at hd
          simp only at hd
          by_cases hts : tsAt data (cur - 1) ≤ fp
          · rw [if_pos hts] at hd
            simp at hd
          · rw [if_neg hts] at hd
            by_cases hcb : cb (sliceOf data ⟨cur - 1, e⟩) = true
            · rw [if_pos hcb] at hd
              simp only [List.mem_cons] at hd
              rcases hd with rfl | hd
              · simpa using by omega
              · exact ih (if 7 ≤ cur - 1 then cur - 1 - 7 else 0)
                  (by split <;> omega) (cur - 1) d hd
            · rw [if_neg hcb] at hd
              simp only [List.mem_singleton] at hd
              subst hd
              simpa using by omega
      · rw [if_neg hm] at hd
        exact ih (cur - 1) (by omega) prev d hd

theorem chainWF_lt (data : List Nat) :
    ∀ starts prev hi, chainWF data prev hi starts → ∀ x ∈ starts, x < hi := by
  intro starts
  induction starts with
  | nil =>
    intro prev hi _ x hx
    simp at hx
  | cons s rest ih =>
    intro prev hi hwf x hx
    obtain ⟨hs, _, _, hrest⟩ := hwf
    rcases List.mem_cons.mp hx with rfl | hx
    · exact hs
    · have := ih s (if 7 ≤ s then s - 7 else 0) hrest x hx
      split at this <;> omega

/-- Shared helper: on a well-formed chain of dive starts the never-stopping
scan succeeds and reports exactly the prefix of dives with timestamps above
the fingerprint cursor, each with the end offset its bounded forward walk
produces. -/
theorem scanLoop_wellformed (data : List Nat) (fp : Nat) :
    ∀ starts prev cur,
      chainWF data prev cur starts →
      (∀ i, i < cur → marker data i → i ∈ starts) →
      scanLoop data fp (fun _ => true) prev cur =
        (.success, divesOf data prev
          (starts.takeWhile (fun s => decide (fp < tsAt data s)))) := by
  intro starts
  induction starts with
  | nil =>
    intro prev cur _ hnm
    rw [scanLoop_skip data fp _ prev cur 0 (by omega)
      (fun j _ hj2 hm => by simpa using hnm j hj2 hm)]
    rw [scanLoop_eq]
    simp [divesOf]
  | cons s rest ih =>
    intro prev cur hwf hnm
    obtain ⟨hs, hm, hfe, hrest⟩ := hwf
    have hskip : ∀ j, s + 1 ≤ j → j < cur → ¬ marker data j := by
      intro j h1 h2 hmj
      rcases List.mem_cons.mp (hnm j h2 hmj) with rfl | hmem
      · omega
      · have := chainWF_lt data rest s (if 7 ≤ s then s - 7 else 0) hrest j hmem
        split at this <;> omega
    rw [scanLoop_skip data fp _ prev cur (s + 1) (by omega) hskip]
    rw [scanLoop_eq]
    simp only [Nat.succ_ne_zero, if_false, Nat.add_sub_cancel]
    rw [if_pos (show byteAt data s = 0xFF ∧ byteAt data (s + 6) = 0xFE from hm)]
    obtain ⟨e, he⟩ := Option.isSome_iff_exists.mp hfe
    rw [he]
    simp only
    by_cases hts : tsAt data s ≤ fp
    · rw [if_pos hts, List.takeWhile_cons,
        if_neg (by simp only [decide_eq_true_eq]; omega)]
      rfl
    · rw [if_neg hts, if_pos trivial]
      rw [ih s (if 7 ≤ s then s - 7 else 0) hrest ?inner]
      case inner =>
        intro i hi hmi
        have hcur : i < cur := by
          have : i < s := by split at hi <;> omega
          omega
        rcases List.mem_cons.mp (hnm i hcur hmi) with rfl | hmem
        · split at hi <;> omega
        · exact hmem
      rw [List.takeWhile_cons,
        if_pos (by simp only [decide_eq_true_eq]; omega)]
      simp [divesOf, he]

theorem divesOf_map_start (data : List Nat) :
    ∀ l prev, (divesOf data prev l).map DiveRec.start = l := by
  intro l
  induction l with
  | nil =>
    intro prev
    rfl
  | cons s rest ih =>
    intro prev
    simp [divesOf, ih]

theorem takeWhile_eq_filter_ts (data : List Nat) (fp : Nat) :
    ∀ starts, List.Chain' (fun a b => tsAt data b ≤ tsAt data a) starts →
      starts.takeWhile (fun s => decide (fp < tsAt data s)) =
        starts.filter (fun s => decide (fp < tsAt data s)) := by
  intro starts
  induction starts with
  | nil =>
    intro _
    rfl
  | cons s rest ih =>
    intro hch
    rw [List.takeWhile_cons, List.filter_cons]
    by_cases hp : fp < tsAt data s
    · rw [if_pos (by simpa), if_pos (by simpa)]
      rw [ih hch.tail]
    · rw [if_neg (by simp only [decide_eq_true_eq]; omega),
        if_neg (by simp only [decide_eq_true_eq]; omega)]
      symm
      rw [List.filter_eq_nil_iff]
      intro x hx
      have htrans : tsAt data x ≤ tsAt data s := by
        letI : IsTrans Nat (fun a b => tsAt data b ≤ tsAt data a) :=
          ⟨fun a b c h1 h2 => le_trans h2 h1⟩
        have hpw := List.chain'_iff_pairwise.mp hch
        exact (List.pairwise_cons.mp hpw).1 x hx
      simp only [decide_eq_true_eq]
      omega

/-- **C1**: Extraction never invokes the visitor on a dive whose 4-byte
little-endian timestamp (at offset 2 from the dive's `0xFF` start marker) is
≤ the session fingerprint cursor — for every buffer, visitor and cursor
value; and on a well-formed address-ordered buffer (dive starts `starts`,
newest first, timestamps non-increasing in scan order) extraction with any
cursor reports exactly the dives with timestamp strictly above the cursor —
in particular, with the cursor equal to the timestamp of dive N, exactly the
dives strictly newer than N and zero dives with timestamp ≤ N. -/
theorem claim_C1_fingerprint_cutoff :
    (∀ (data : List Nat) (fp : Nat) (cb : List Nat → Bool) (d : DiveRec),
      d ∈ (reefnet_sensus_extract_dives data fp cb).2 →
        fp < tsAt data d.start) ∧
    (∀ (data starts : List Nat) (fp : Nat),
      wellFormed data starts →
      List.Chain' (fun a b => tsAt data b ≤ tsAt data a) starts →
      reefnet_sensus_extract_dives data fp (fun _ => true) =
        (.success, divesOf data data.length
          (starts.filter (fun s => decide (fp < tsAt data s)))) ∧
      (reefnet_sensus_extract_dives data fp (fun _ => true)).2.map
          DiveRec.start =
        starts.filter (fun s => decide (fp < tsAt data s))) := by
  constructor
  · intro data fp cb d hd
    exact scanLoop_ts_gt data fp cb _ _ d hd
  · intro data starts fp hwf hmono
    obtain ⟨hchain, hsp⟩ := hwf
    have hcur : (if 7 ≤ data.length then data.length - 7 else 0) ≤
        data.length := by split <;> omega
    have hmain := scanLoop_wellformed data fp starts data.length
      (if 7 ≤ data.length then data.length - 7 else 0) hchain
      (fun i hi hm => hsp i (by omega) hm)
    rw [takeWhile_eq_filter_ts data fp starts hmono] at hmain
    unfold reefnet_sensus_extract_dives
    refine ⟨hmain, ?_⟩
    rw [hmain]
    simp [divesOf_map_start]

/-- Witness for C1 on the two-dive buffer: with cursor equal to the older
dive's timestamp (1), exactly the newer dive (timestamp 2, start 28) is
reported, and its timestamp exceeds the cursor. -/
theorem claim_C1_witness :
    ((⟨28, 55⟩ : DiveRec) ∈
        (reefnet_sensus_extract_dives twoDives 1 (fun _ => true)).2 ∧
      1 < tsAt twoDives (⟨28, 55⟩ : DiveRec).start) ∧
    (wellFormed twoDives [28, 0] ∧
      List.Chain' (fun a b => tsAt twoDives b ≤ tsAt twoDives a) [28, 0] ∧
      reefnet_sensus_extract_dives twoDives 1 (fun _ => true) =
        (.success, divesOf twoDives twoDives.length
          (([28, 0] : List Nat).filter
            (fun s => decide (1 < tsAt twoDives s)))) ∧
      (reefnet_sensus_extract_dives twoDives 1 (fun _ => true)).2.map
          DiveRec.start =
        ([28, 0] : List Nat).filter (fun s => decide (1 < tsAt twoDives s))) := by
  have hwf : wellFormed twoDives [28, 0] := by decide
  have hch : List.Chain' (fun a b => tsAt twoDives b ≤ tsAt twoDives a)
      [28, 0] := by
    rw [List.chain'_cons]
    exact ⟨by decide, List.chain'_singleton _⟩
  have hmem : (⟨28, 55⟩ : DiveRec) ∈
      (reefnet_sensus_extract_dives twoDives 1 (fun _ => true)).2 := by decide
  refine ⟨⟨hmem, ?_⟩, hwf, hch, ?_⟩
  · exact claim_C1_fingerprint_cutoff.1 twoDives 1 (fun _ => true) ⟨28, 55⟩ hmem
  · exact claim_C1_fingerprint_cutoff.2 twoDives [28, 0] 1 hwf hch

end LibDC
